import Mathlib

/-!
Shallow embedding of the `benfrankel/nonogram` solver (src/model.rs and
src/solver.rs) and proofs about it.

Modelling conventions:
* `usize` is modelled by `Nat`; `usize::max_value()` is the concrete
  constant `usizeMax = 2^64 - 1`.  Wherever the Rust code subtracts and the
  subtraction cannot underflow at its call sites, plain `Nat` subtraction is
  used; the one subtraction that can underflow (`line.len() - span` in
  `deduce_overlap`) would panic in a debug build, and is modelled by an
  `Option` result (`none` = panic).
* Rust indexing (`line[i]`, `hints[k]`, `runs[k]`) panics out of range; every
  call site in the source stays in range, and the model makes the out-of-range
  case a no-op (`get?`/`getD`), which is never exercised by those call sites.
* `HashSet<usize>` (the per-line `dirty` set) is modelled as a duplicate-free
  `List Nat` in insertion order; `HashMap<LineIndex, Vec<PartialRun>>` is
  modelled as one list of run vectors per axis (`runsRow` / `runsCol`).
  (Rust's hash iteration order is unspecified; the model fixes insertion
  order.  In the concrete runs below every dirty set is a singleton, so the
  choice is immaterial there.)
* `Grid<PartialSquare>` (an `ndarray::Array2`) is modelled row-major as
  `List (List PartialSquare)`; `grid.line(li)` becomes `gridLine`, and writing
  through the mutable line view becomes `setGridLine`.
-/

namespace Nonogram

/-- `model.rs`: `enum Square { Empty, Full }`. -/
inductive Square where
  | empty
  | full
deriving DecidableEq, Repr, BEq

/-- `model.rs`: `enum LineIndex { Row(usize), Col(usize) }`. -/
inductive LineIndex where
  | row (i : Nat)
  | col (j : Nat)
deriving DecidableEq, Repr, BEq

/-- `model.rs`: `LineIndex::line_through(k)` — the perpendicular line through
position `k` of this line. -/
def LineIndex.line_through : LineIndex → Nat → LineIndex
  | .row _, k => .col k
  | .col _, k => .row k

/-- `model.rs`: `struct Puzzle { row_hints, col_hints }`. -/
structure Puzzle where
  row_hints : List (List Nat)
  col_hints : List (List Nat)
deriving DecidableEq, Repr

/-- `model.rs`: `Puzzle::new()`. -/
def Puzzle.new : Puzzle := ⟨[], []⟩

/-- `model.rs`: `Puzzle::push_row(hints)` — appends a row hint sequence;
it performs no check and cannot fail. -/
def Puzzle.push_row (p : Puzzle) (hints : List Nat) : Puzzle :=
  { p with row_hints := p.row_hints ++ [hints] }

/-- `model.rs`: `Puzzle::push_col(hints)` — appends a column hint sequence;
it performs no check and cannot fail. -/
def Puzzle.push_col (p : Puzzle) (hints : List Nat) : Puzzle :=
  { p with col_hints := p.col_hints ++ [hints] }

/-- `model.rs`: `Puzzle::w()`. -/
def Puzzle.w (p : Puzzle) : Nat := p.col_hints.length

/-- `model.rs`: `Puzzle::h()`. -/
def Puzzle.h (p : Puzzle) : Nat := p.row_hints.length

/-- `model.rs`: `Puzzle::hints(li)`.  Rust indexes and would panic out of
range; call sites stay in range. -/
def Puzzle.hints (p : Puzzle) : LineIndex → List Nat
  | .row i => p.row_hints.getD i []
  | .col j => p.col_hints.getD j []

/-- `model.rs`: `Puzzle::index_iter()` — all line indices in canonical order
`Row 0, …, Row (h-1), Col 0, …, Col (w-1)` (the source's `LineIndexIterator`,
which per its FIXME assumes at least one row). -/
def Puzzle.index_iter (p : Puzzle) : List LineIndex :=
  (List.range p.h).map LineIndex.row ++ (List.range p.w).map LineIndex.col

/-- `solver.rs`: `enum SolverError { Solved, Invalid, Stuck }`. -/
inductive SolverError where
  | solved
  | invalid
  | stuck
deriving DecidableEq, Repr

/-- `solver.rs`: `enum PartialSquare { Unknown, Known(Square) }`. -/
inductive PartialSquare where
  | unknown
  | known (s : Square)
deriving DecidableEq, Repr, BEq

/-- `solver.rs`: `PartialSquare::is_known()`. -/
def PartialSquare.is_known : PartialSquare → Bool
  | .unknown => false
  | .known _ => true

/-- `solver.rs`: `PartialSquare::reveal(x)` — unconditionally overwrites the
cell with `Known(x)` and reports whether the stored value changed
(`false` exactly when the cell already held `Known(x)`). -/
def PartialSquare.reveal (sq : PartialSquare) (x : Square) : PartialSquare × Bool :=
  let res : Bool :=
    match sq with
    | .known old => !(old == x)
    | _ => true
  (PartialSquare.known x, res)

/-- `solver.rs`: `struct PartialRun { lo, hi }`. -/
structure PartialRun where
  lo : Nat
  hi : Nat
deriving DecidableEq, Repr

/-- `usize::max_value()` on a 64-bit target. -/
def usizeMax : Nat := 2 ^ 64 - 1

/-- `solver.rs`: `PartialRun::new()` — `lo = 0`, `hi = usize::max_value()`. -/
def PartialRun.new : PartialRun := ⟨0, usizeMax⟩

/-- `solver.rs`: `PartialRun::update(lo, hi)` — `lo` can only grow, `hi` can
only shrink. -/
def PartialRun.update (r : PartialRun) (lo hi : Nat) : PartialRun :=
  ⟨max r.lo lo, min r.hi hi⟩

/-- `solver.rs`: `struct PartialLine` — one line's hints, run brackets, cell
slice and dirty set. -/
structure PartialLine where
  hints : List Nat
  runs : List PartialRun
  line : List PartialSquare
  dirty : List Nat
deriving DecidableEq, Repr

/-- `HashSet::insert` on the dirty set, resolved to insertion order. -/
def dirtyInsert (d : List Nat) (i : Nat) : List Nat :=
  if i ∈ d then d else d ++ [i]

/-- `solver.rs`: `PartialLine::reveal(i, x)` — overwrite cell `i` with
`Known(x)` and record `i` as dirty when the cell's value changed.  Rust would
panic for `i` out of range; call sites stay in range. -/
def PartialLine.reveal (pl : PartialLine) (i : Nat) (x : Square) : PartialLine :=
  match pl.line.get? i with
  | none => pl
  | some sq =>
    let r := sq.reveal x
    { pl with
      line := pl.line.set i r.1
      dirty := if r.2 then dirtyInsert pl.dirty i else pl.dirty }

/-- Helper for `natRange`: the `len` naturals counting up from `lo`. -/
def natRangeGo : Nat → Nat → List Nat
  | _, 0 => []
  | lo, len + 1 => lo :: natRangeGo (lo + 1) len

/-- The Rust range `lo..hi` as a list (`lo, lo+1, …, hi-1`; empty when
`hi ≤ lo`). -/
def natRange (lo hi : Nat) : List Nat :=
  natRangeGo lo (hi - lo)

/-- `solver.rs`: `PartialLine::reveal_all(bag, x)`. -/
def PartialLine.reveal_all (pl : PartialLine) (bag : List Nat) (x : Square) : PartialLine :=
  bag.foldl (fun acc i => acc.reveal i x) pl

/-- `solver.rs`: `PartialLine::reveal_run(run_index, lo, hi)` — reveal
`[lo, hi)` as Full, then tighten bracket `run_index`.  Rust would panic for
`run_index` out of range; call sites stay in range. -/
def PartialLine.reveal_run (pl : PartialLine) (run_index lo hi : Nat) : PartialLine :=
  let pl1 := pl.reveal_all (natRange lo hi) Square.full
  match pl1.hints.get? run_index, pl1.runs.get? run_index with
  | some hint, some r =>
    let r' := if hi > hint then r.update (hi - hint) (lo + hint)
              else r.update 0 (lo + hint)
    { pl1 with runs := pl1.runs.set run_index r' }
  | _, _ => pl1

/-- The enumerated loop body of `deduce_overlap` (`for (i, hint) in
partial.hints.iter().enumerate()` with the running `left` offset). -/
def overlapGo (pl : PartialLine) : List Nat → Nat → Nat → Nat → PartialLine
  | [], _, _, _ => pl
  | hint :: rest, i, left, flexibility =>
    let lo := left + flexibility
    let hi := left + hint
    let pl1 := if lo < hi then pl.reveal_run i lo hi else pl
    overlapGo pl1 rest (i + 1) (hi + 1) flexibility

/-- `solver.rs`: `deduce_overlap` — the overlap rule.  The Rust expression
`partial.line.len() - span` panics (usize underflow, debug build) when
`span > line.len()`; that panic is modelled by `none`. -/
def deduce_overlap (pl : PartialLine) : Option PartialLine :=
  let gap_span := if pl.hints.isEmpty then 0 else pl.hints.length - 1
  let span := pl.hints.sum + gap_span
  if span ≤ pl.line.length then
    some (overlapGo pl pl.hints 0 0 (pl.line.length - span))
  else
    none

/-- `solver.rs`: `deduce_run_gaps` — reveal Empty everywhere outside the run
brackets. -/
def deduce_run_gaps (pl : PartialLine) : PartialLine :=
  let e := pl.line.length
  if pl.runs.isEmpty then
    pl.reveal_all (natRange 0 e) Square.empty
  else
    let lo := (pl.runs.head?.getD PartialRun.new).lo
    let hi := (pl.runs.getLast?.getD PartialRun.new).hi
    let pl1 := pl.reveal_all (natRange 0 lo) Square.empty
    let pl2 := pl1.reveal_all (natRange hi e) Square.empty
    (List.range (pl.runs.length - 1)).foldl
      (fun acc i =>
        acc.reveal_all
          (natRange ((acc.runs.getD i PartialRun.new).hi)
                    ((acc.runs.getD (i + 1) PartialRun.new).lo))
          Square.empty)
      pl2

/-- `model.rs`: `Grid::line(li)` — the row or column `li` of the grid. -/
def gridLine (g : List (List PartialSquare)) : LineIndex → List PartialSquare
  | .row i => g.getD i []
  | .col j => g.map fun r => r.getD j PartialSquare.unknown

/-- Writing a line view back into the grid (the effect of mutating
`Grid::line(li)` through the `ArrayViewMut1`). -/
def setGridLine (g : List (List PartialSquare)) :
    LineIndex → List PartialSquare → List (List PartialSquare)
  | .row i, l => g.set i l
  | .col j, l => List.zipWith (fun row sq => row.set j sq) g l

/-- `solver.rs`: `struct SolverWorker` — the solver state: the puzzle, the
grid of partial squares, the FIFO queue of line indices, and the per-line run
brackets (the source's `HashMap<LineIndex, Vec<PartialRun>>`, split per
axis). -/
structure SolverWorker where
  puzzle : Puzzle
  grid : List (List PartialSquare)
  queue : List LineIndex
  runsRow : List (List PartialRun)
  runsCol : List (List PartialRun)
deriving DecidableEq, Repr

/-- `solver.rs`: `SolverWorker::new` — all cells Unknown, every line enqueued
in canonical order, all run brackets defaulted to `PartialRun::new()`. -/
def SolverWorker.new (p : Puzzle) : SolverWorker :=
  { puzzle := p
    grid := List.replicate p.h (List.replicate p.w PartialSquare.unknown)
    queue := p.index_iter
    runsRow := p.row_hints.map fun hs => List.replicate hs.length PartialRun.new
    runsCol := p.col_hints.map fun hs => List.replicate hs.length PartialRun.new }

/-- `solver.rs`: `SolverWorker::line` — the `PartialLine` view for line `li`,
with a fresh empty dirty set. -/
def SolverWorker.line (p : Puzzle) (rr rc : List (List PartialRun))
    (g : List (List PartialSquare)) (li : LineIndex) : PartialLine :=
  { hints := p.hints li
    runs := match li with
            | .row i => rr.getD i []
            | .col j => rc.getD j []
    line := gridLine g li
    dirty := [] }

/-- `solver.rs`: `SolverWorker::verify` — `Stuck` when some cell is still
Unknown, `Solved` otherwise.  (The source's TODO notes that it performs no
validation and never returns `Invalid`.) -/
def verify (g : List (List PartialSquare)) : SolverError :=
  if g.any (fun row => row.any (fun sq => sq == PartialSquare.unknown)) then
    SolverError.stuck
  else
    SolverError.solved

/-- The inner `loop` of `SolverWorker::step`: run both registered deductions
(`deduce_overlap`, then `deduce_run_gaps`, the order fixed by `Solver::new`)
until a whole pass reveals nothing new.  Each continuing pass strictly grows
the duplicate-free dirty set, and the dirty set only holds in-range cell
indices, so `line length + 1` rounds of fuel always suffice; `none` also
propagates a panic from `deduce_overlap`. -/
def saturate : Nat → PartialLine → Option PartialLine
  | 0, _ => none
  | fuel + 1, pl => do
    let n := pl.dirty.length
    let pl1 ← deduce_overlap pl
    let pl2 := deduce_run_gaps pl1
    if pl2.dirty.length = n then pure pl2 else saturate fuel pl2

/-- Result of one `SolverWorker::step`: `Ok(())` with the mutated worker, or
the terminal classification. -/
inductive StepOutcome where
  | progress (w : SolverWorker)
  | done (e : SolverError)
deriving DecidableEq, Repr

/-- Writing a processed line's run brackets back into the per-row map (the
effect of mutating `runs.get_mut(&li)` when `li` is a row). -/
def setRunsRow (rr : List (List PartialRun)) (li : LineIndex) (rs : List PartialRun) :
    List (List PartialRun) :=
  match li with
  | .row i => rr.set i rs
  | .col _ => rr

/-- Writing a processed line's run brackets back into the per-column map (the
effect of mutating `runs.get_mut(&li)` when `li` is a column). -/
def setRunsCol (rc : List (List PartialRun)) (li : LineIndex) (rs : List PartialRun) :
    List (List PartialRun) :=
  match li with
  | .col j => rc.set j rs
  | .row _ => rc

/-- The `while let Some(li) = self.queue.pop_front()` loop of
`SolverWorker::step`, threading the grid and run brackets: pop lines until one
saturates with a non-empty dirty set (then enqueue the crossing line of every
dirty cell, unconditionally, at the back of the queue) or the queue drains
(then classify via `verify`). -/
def stepGo (p : Puzzle) :
    List LineIndex → List (List PartialSquare) →
    List (List PartialRun) → List (List PartialRun) → Option StepOutcome
  | [], g, _, _ => some (.done (verify g))
  | li :: rest, g, rr, rc =>
    match saturate ((SolverWorker.line p rr rc g li).line.length + 1)
            (SolverWorker.line p rr rc g li) with
    | none => none
    | some pl =>
      if pl.dirty.isEmpty then
        stepGo p rest (setGridLine g li pl.line) (setRunsRow rr li pl.runs)
          (setRunsCol rc li pl.runs)
      else
        some (.progress
          ⟨p, setGridLine g li pl.line, rest ++ pl.dirty.map li.line_through,
           setRunsRow rr li pl.runs, setRunsCol rc li pl.runs⟩)

/-- `solver.rs`: `SolverWorker::step`. -/
def SolverWorker.step (w : SolverWorker) : Option StepOutcome :=
  stepGo w.puzzle w.queue w.grid w.runsRow w.runsCol

/-- `solver.rs`: `SolverWorker::solve` — run `step` until it returns an error,
mapping `Solved` to `Ok(())`, with explicit fuel counting the outer-loop
iterations; `none` means no result within `fuel` steps (or a panic). -/
def solveGo : Nat → SolverWorker → Option (Except SolverError Unit)
  | 0, _ => none
  | n + 1, w =>
    match w.step with
    | none => none
    | some (.done .solved) => some (.ok ())
    | some (.done e) => some (.error e)
    | some (.progress w1) => solveGo n w1

/-- `solver.rs`: `Solver::new().delegate(&puzzle).solve()` with explicit
fuel. -/
def solveFuel (fuel : Nat) (p : Puzzle) : Option (Except SolverError Unit) :=
  solveGo fuel (SolverWorker.new p)

/-- The specification's per-line well-formedness bound:
`Σ hints + max(0, len − 1) ≤ line_length` (in `Nat`, `hints.length - 1`
truncates at 0, which is exactly `max(0, len − 1)`). -/
def lineFits (hints : List Nat) (len : Nat) : Bool :=
  hints.sum + (hints.length - 1) ≤ len

/-- The specification's puzzle well-formedness: every row fits in the width,
every column in the height. -/
def wellFormed (p : Puzzle) : Bool :=
  p.row_hints.all (fun hs => lineFits hs p.w) &&
  p.col_hints.all (fun hs => lineFits hs p.h)

/-- The specification's scenario 6: the contradictory 1×1 puzzle with row
hints `[1]` and column hints `[]`. -/
def contraPuzzle : Puzzle := (Puzzle.new.push_row [1]).push_col []

/-- The worker state after one `step` on `contraPuzzle`: the row rule painted
the cell Full and pushed `Col 0` behind the already-queued `Col 0`. -/
def cw1 : SolverWorker :=
  ⟨contraPuzzle, [[.known .full]], [.col 0, .col 0], [[⟨0, 1⟩]], [[]]⟩

/-- The worker state after two steps on `contraPuzzle`: the column rule
overwrote the cell to Empty and pushed `Row 0`. -/
def cw2 : SolverWorker :=
  ⟨contraPuzzle, [[.known .empty]], [.col 0, .row 0], [[⟨0, 1⟩]], [[]]⟩

/-- The worker state after three steps on `contraPuzzle`: Full again, with
`Col 0` queued. -/
def cw3 : SolverWorker :=
  ⟨contraPuzzle, [[.known .full]], [.col 0], [[⟨0, 1⟩]], [[]]⟩

/-- The worker state after four steps on `contraPuzzle`: Empty again, with
`Row 0` queued.  `cw3.step` yields `cw4` and `cw4.step` yields `cw3`: the
solver oscillates between these two states forever. -/
def cw4 : SolverWorker :=
  ⟨contraPuzzle, [[.known .empty]], [.row 0], [[⟨0, 1⟩]], [[]]⟩

/-- A worker that steps into a diverging worker diverges. -/
theorem solveGo_none_of_step (a b : SolverWorker)
    (hab : a.step = some (.progress b))
    (hb : ∀ n, solveGo n b = none) : ∀ n, solveGo n a = none := by
  intro n
  cases n with
  | zero => rfl
  | succ n => simp [solveGo, hab, hb n]

/-- Two workers whose steps cycle between each other both diverge. -/
theorem solveGo_none_of_cycle (a b : SolverWorker)
    (hab : a.step = some (.progress b)) (hba : b.step = some (.progress a)) :
    ∀ n, solveGo n a = none := by
  have key : ∀ n, solveGo n a = none ∧ solveGo n b = none := by
    intro n
    induction n with
    | zero => exact ⟨rfl, rfl⟩
    | succ n ih =>
      exact ⟨by simp [solveGo, hab, ih.2], by simp [solveGo, hba, ih.1]⟩
  exact fun n => (key n).1

theorem contra_step0 : (SolverWorker.new contraPuzzle).step = some (.progress cw1) := by rfl

theorem contra_step1 : cw1.step = some (.progress cw2) := by rfl

theorem contra_step2 : cw2.step = some (.progress cw3) := by rfl

theorem contra_step3 : cw3.step = some (.progress cw4) := by rfl

theorem contra_step4 : cw4.step = some (.progress cw3) := by rfl

/-- On `contraPuzzle`, `solve` never returns, whatever the fuel. -/
theorem contraDiverges : ∀ n, solveGo n (SolverWorker.new contraPuzzle) = none :=
  solveGo_none_of_step _ _ contra_step0
    (solveGo_none_of_step _ _ contra_step1
      (solveGo_none_of_step _ _ contra_step2
        (solveGo_none_of_cycle _ _ contra_step3 contra_step4)))

/-- C2: the claim says `solve` returns within `W·H + (W+H)·max_hints + 1`
steps on every well-formed puzzle.  The 1×1 puzzle with row hints `[1]` and
column hints `[]` is well-formed (`1 + 0 ≤ 1` and `0 + 0 ≤ 1`), yet `solve`
never returns on it: the single cell is overwritten Full/Empty forever, so no
step bound holds (the claimed bound here would be `1·1 + (1+1)·1 + 1 = 4`). -/
theorem c2_solve_diverges_on_wellformed_puzzle :
    wellFormed contraPuzzle = true ∧
    ∀ n, solveFuel n contraPuzzle = none :=
  ⟨rfl, contraDiverges⟩

/-- C3: the claim (and the specification's scenario 6) says `solve` returns
the `Invalid` error on the 1×1 puzzle with row hints `[1]` and column hints
`[]`.  The code never constructs `SolverError::Invalid` and in fact never
returns on this puzzle at all: for every fuel, no result — in particular
never `Err(Invalid)`. -/
theorem c3_invalid_never_returned_on_contradiction :
    ∀ n, solveFuel n contraPuzzle ≠ some (.error SolverError.invalid) := by
  intro n h
  rw [solveFuel, contraDiverges n] at h
  exact Option.noConfusion h

/-- A one-cell line already revealed Full, with row hint `[1]`. -/
def c1line : PartialLine := ⟨[1], [⟨0, 1⟩], [.known .full], []⟩

/-- C1: the claim says a conflicting `reveal` fails with Invalid and never
overwrites the existing Known value, and that `dirty` records only
Unknown-to-Known transitions.  On a cell already `Known(Full)`, revealing
Empty silently overwrites it to `Known(Empty)` and records the cell as dirty:
nothing fails. -/
theorem c1_reveal_conflict_overwrites :
    (c1line.reveal 0 Square.empty).line = [PartialSquare.known Square.empty] ∧
    (c1line.reveal 0 Square.empty).dirty = [0] :=
  ⟨rfl, rfl⟩

/-- C1 (amended): for every in-range cell `i`, `reveal(i, x)` always sets the
cell to `Known(x)` — overwriting a conflicting Known value — and records `i`
into `dirty` exactly when the previous value was not already `Known(x)`
(i.e. when it was Unknown or a conflicting Known); it never fails, and it
leaves the hints and run brackets untouched. -/
theorem c1_reveal_spec (pl : PartialLine) (i : Nat) (x : Square) (sq : PartialSquare)
    (h : pl.line.get? i = some sq) :
    (pl.reveal i x).line = pl.line.set i (.known x) ∧
    (pl.reveal i x).dirty =
      (if sq = PartialSquare.known x then pl.dirty else dirtyInsert pl.dirty i) ∧
    (pl.reveal i x).hints = pl.hints ∧
    (pl.reveal i x).runs = pl.runs := by
  unfold PartialLine.reveal
  rw [h]
  refine ⟨rfl, ?_, rfl, rfl⟩
  cases sq with
  | unknown => rfl
  | known old => cases old <;> cases x <;> rfl

/-- C1 witness: the amended statement evaluated on `c1line` at cell 0 with
value Empty. -/
theorem c1_reveal_spec_witness :
    (c1line.reveal 0 Square.empty).line = c1line.line.set 0 (.known Square.empty) ∧
    (c1line.reveal 0 Square.empty).dirty =
      (if PartialSquare.known Square.full = PartialSquare.known Square.empty
       then c1line.dirty else dirtyInsert c1line.dirty 0) ∧
    (c1line.reveal 0 Square.empty).hints = c1line.hints ∧
    (c1line.reveal 0 Square.empty).runs = c1line.runs :=
  c1_reveal_spec c1line 0 Square.empty (PartialSquare.known Square.full) rfl

/-- A malformed puzzle: one row with hint `[2]` on a grid of width 1
(`Σ hints + max(0, len−1) = 2 > 1`). -/
def malformedPuzzle : Puzzle := (Puzzle.new.push_row [2]).push_col []

/-- C4: the claim says construction fails with MalformedPuzzle on such hints
and the puzzle is rejected before solving.  In the code, construction cannot
fail (there is no finalization and no MalformedPuzzle variant in
`SolverError`): the malformed puzzle is built, and solving it begins — the
worker is created with both lines enqueued. -/
theorem c4_malformed_not_rejected :
    wellFormed malformedPuzzle = false ∧
    (SolverWorker.new malformedPuzzle).queue = [LineIndex.row 0, LineIndex.col 0] :=
  ⟨rfl, rfl⟩

/-- C4 (amended): `push_row` / `push_col` are plain appends that never fail
and perform no well-formedness check, so a puzzle with
`Σ hints + max(0, len−1) > line_length` is accepted; solving it then panics
(usize underflow in `deduce_overlap`, modelled by `none`) instead of
returning a MalformedPuzzle error. -/
theorem c4_construction_total :
    (∀ (p : Puzzle) (hs : List Nat),
        (p.push_row hs).row_hints = p.row_hints ++ [hs] ∧
        (p.push_row hs).col_hints = p.col_hints ∧
        (p.push_col hs).col_hints = p.col_hints ++ [hs] ∧
        (p.push_col hs).row_hints = p.row_hints) ∧
    solveFuel 5 malformedPuzzle = none :=
  ⟨fun _ _ => ⟨rfl, rfl, rfl, rfl⟩, rfl⟩

/-- The saturated line the first step on `contraPuzzle` computes for `Row 0`:
cell 0 revealed Full, bracket tightened to `[0, 1]`, dirty set `{0}`. -/
def plW : PartialLine := ⟨[1], [⟨0, 1⟩], [.known .full], [0]⟩

/-- C5: the claim says each `LineIndex` occurs at most once in the queue
(idempotent enqueue via a membership marker).  After the very first step on
`contraPuzzle`, `Col 0` occurs twice in the queue: the initial enqueue of
`Col 0` is still pending when the row's dirty cell pushes `Col 0` again. -/
theorem c5_duplicate_in_queue :
    (SolverWorker.new contraPuzzle).step = some (.progress cw1) ∧
    ¬ cw1.queue.count (LineIndex.col 0) ≤ 1 :=
  ⟨contra_step0, by decide⟩

/-- C5 (amended): enqueueing is not deduplicated — there is no membership
marker.  Whenever a popped line `li` saturates with a non-empty dirty set,
`step` appends the crossing line of every dirty cell to the back of the
queue unconditionally, so a `LineIndex` can occur more than once. -/
theorem c5_enqueue_no_dedup (p : Puzzle) (li : LineIndex) (rest : List LineIndex)
    (g : List (List PartialSquare)) (rr rc : List (List PartialRun)) (pl : PartialLine)
    (hsat : saturate ((SolverWorker.line p rr rc g li).line.length + 1)
              (SolverWorker.line p rr rc g li) = some pl)
    (hd : pl.dirty ≠ []) :
    stepGo p (li :: rest) g rr rc =
      some (.progress
        ⟨p, setGridLine g li pl.line,
         rest ++ pl.dirty.map li.line_through,
         setRunsRow rr li pl.runs, setRunsCol rc li pl.runs⟩) := by
  unfold stepGo
  rw [hsat]
  cases hdl : pl.dirty with
  | nil => exact absurd hdl hd
  | cons a l => simp [hdl]

/-- C5 witness: the amended statement evaluated on the first step of
`contraPuzzle`. -/
theorem c5_enqueue_no_dedup_witness :
    stepGo contraPuzzle (LineIndex.row 0 :: [LineIndex.col 0]) [[PartialSquare.unknown]]
        [[PartialRun.new]] [[]] =
      some (.progress
        ⟨contraPuzzle, setGridLine [[PartialSquare.unknown]] (LineIndex.row 0) plW.line,
         [LineIndex.col 0] ++ plW.dirty.map (LineIndex.row 0).line_through,
         setRunsRow [[PartialRun.new]] (LineIndex.row 0) plW.runs,
         setRunsCol [[]] (LineIndex.row 0) plW.runs⟩) :=
  c5_enqueue_no_dedup contraPuzzle (.row 0) [.col 0] [[PartialSquare.unknown]]
    [[PartialRun.new]] [[]] plW rfl (by decide)

/-- C9: the claim says every bracket starts with `hi` equal to the line's
length, not an unbounded sentinel.  In `PartialRun::new` the initial `hi` is
`usize::max_value() = 2^64 − 1`: for the 1×1 `contraPuzzle` the row's bracket
starts at `⟨0, 2^64 − 1⟩`, not at the line length 1. -/
theorem c9_initial_hi_not_line_length :
    ((SolverWorker.new contraPuzzle).runsRow.getD 0 []).getD 0 ⟨0, 0⟩ =
      ⟨0, 2 ^ 64 - 1⟩ ∧
    (2 ^ 64 - 1 : Nat) ≠ contraPuzzle.w := by
  exact ⟨rfl, by decide⟩

/-- C9 (amended): at worker initialization every bracket of every line is
`lo = 0, hi = usize::max_value() = 2^64 − 1` — the unbounded sentinel — one
default bracket per hint of the line. -/
theorem c9_initial_brackets (p : Puzzle) :
    (∀ i, (SolverWorker.new p).runsRow.get? i =
        (p.row_hints.get? i).map fun hs => List.replicate hs.length ⟨0, usizeMax⟩) ∧
    (∀ j, (SolverWorker.new p).runsCol.get? j =
        (p.col_hints.get? j).map fun hs => List.replicate hs.length ⟨0, usizeMax⟩) ∧
    usizeMax = 2 ^ 64 - 1 := by
  refine ⟨fun i => ?_, fun j => ?_, rfl⟩ <;>
    simp [SolverWorker.new, List.get?_map, PartialRun.new]

theorem reveal_hints (pl : PartialLine) (i : Nat) (x : Square) :
    (pl.reveal i x).hints = pl.hints := by
  unfold PartialLine.reveal
  cases pl.line.get? i <;> rfl

theorem reveal_runs (pl : PartialLine) (i : Nat) (x : Square) :
    (pl.reveal i x).runs = pl.runs := by
  unfold PartialLine.reveal
  cases pl.line.get? i <;> rfl

theorem reveal_length (pl : PartialLine) (i : Nat) (x : Square) :
    (pl.reveal i x).line.length = pl.line.length := by
  unfold PartialLine.reveal
  cases pl.line.get? i
  · rfl
  · simp [List.length_set]

theorem reveal_line (pl : PartialLine) (i : Nat) (x : Square) (h : i < pl.line.length) :
    (pl.reveal i x).line = pl.line.set i (.known x) := by
  unfold PartialLine.reveal
  rw [List.get?_eq_get h]
  rfl

theorem reveal_all_hints (x : Square) :
    ∀ (bag : List Nat) (pl : PartialLine), (pl.reveal_all bag x).hints = pl.hints := by
  intro bag
  induction bag with
  | nil => intro pl; rfl
  | cons a l ih =>
    intro pl
    calc (pl.reveal_all (a :: l) x).hints
        = ((pl.reveal a x).reveal_all l x).hints := rfl
      _ = (pl.reveal a x).hints := ih _
      _ = pl.hints := reveal_hints _ _ _

theorem reveal_all_runs (x : Square) :
    ∀ (bag : List Nat) (pl : PartialLine), (pl.reveal_all bag x).runs = pl.runs := by
  intro bag
  induction bag with
  | nil => intro pl; rfl
  | cons a l ih =>
    intro pl
    calc (pl.reveal_all (a :: l) x).runs
        = ((pl.reveal a x).reveal_all l x).runs := rfl
      _ = (pl.reveal a x).runs := ih _
      _ = pl.runs := reveal_runs _ _ _

theorem reveal_all_length (x : Square) :
    ∀ (bag : List Nat) (pl : PartialLine),
      (pl.reveal_all bag x).line.length = pl.line.length := by
  intro bag
  induction bag with
  | nil => intro pl; rfl
  | cons a l ih =>
    intro pl
    calc (pl.reveal_all (a :: l) x).line.length
        = ((pl.reveal a x).reveal_all l x).line.length := rfl
      _ = (pl.reveal a x).line.length := ih _
      _ = pl.line.length := reveal_length _ _ _

/-- Cell-level effect of revealing the whole range `[lo, hi)`: every cell of
the range becomes `Known x`, every other cell keeps its value. -/
theorem reveal_all_range_get? (x : Square) :
    ∀ (n : Nat) (pl : PartialLine) (lo hi : Nat), hi - lo = n →
      hi ≤ pl.line.length → ∀ j,
      (pl.reveal_all (natRange lo hi) x).line.get? j =
        if lo ≤ j ∧ j < hi then some (.known x) else pl.line.get? j := by
  intro n
  induction n with
  | zero =>
    intro pl lo hi hn _ j
    have hle : hi ≤ lo := by omega
    have hnil : natRange lo hi = [] := by unfold natRange; rw [hn]; rfl
    have hout : ¬ (lo ≤ j ∧ j < hi) := by omega
    rw [hnil]
    simp [PartialLine.reveal_all, hout]
  | succ n ih =>
    intro pl lo hi hn hlen j
    have hlt : lo < hi := by omega
    have hcons : natRange lo hi = lo :: natRange (lo + 1) hi := by
      unfold natRange
      rw [hn, show hi - (lo + 1) = n from by omega]
      rfl
    rw [hcons,
      show pl.reveal_all (lo :: natRange (lo + 1) hi) x
         = (pl.reveal lo x).reveal_all (natRange (lo + 1) hi) x from rfl,
      ih (pl.reveal lo x) (lo + 1) hi (by omega)
        (by rw [reveal_length]; exact hlen) j,
      reveal_line pl lo x (lt_of_lt_of_le hlt hlen)]
    by_cases hj : j = lo
    · subst hj
      rw [if_neg (by omega), if_pos (by omega)]
      exact List.get?_set_eq_of_lt _ (lt_of_lt_of_le hlt hlen)
    · rw [List.get?_set_ne _ _ (fun hlj => hj hlj.symm)]
      by_cases hin : lo + 1 ≤ j ∧ j < hi
      · rw [if_pos hin, if_pos (by omega)]
      · rw [if_neg hin, if_neg (by omega)]

/-- A line with hint `[1]`, the default bracket, and three Unknown cells. -/
def c6line : PartialLine := ⟨[1], [PartialRun.new], [.unknown, .unknown, .unknown], []⟩

/-- C6: the claim says `reveal_run` fails with Invalid when the tightened
bracket becomes infeasible (`new.lo + hints[k] > new.hi`).  Revealing `[0, 3)`
for the run of length 1 tightens the bracket to `⟨2, 1⟩`, which is infeasible
(`2 + 1 > 1`), yet `reveal_run` returns normally (its result type has no
failure at all) and keeps the infeasible bracket. -/
theorem c6_infeasible_bracket_kept :
    (c6line.reveal_run 0 0 3).runs = [⟨2, 1⟩] ∧
    ((c6line.reveal_run 0 0 3).runs.getD 0 PartialRun.new).lo + c6line.hints.getD 0 0 >
      ((c6line.reveal_run 0 0 3).runs.getD 0 PartialRun.new).hi := by
  exact ⟨rfl, by decide⟩

/-- C6 (amended): for every in-range run index `k` and `hi` within the line,
`reveal_run(k, lo, hi)` reveals every cell of `[lo, hi)` as Full (leaving the
other cells unchanged) and tightens bracket `k` to exactly
`new.lo = max(old.lo, hi ∸ hints[k])` (Nat subtraction, truncating at 0) and
`new.hi = min(old.hi, lo + hints[k])`; it never fails — an infeasible bracket
is stored silently. -/
theorem c6_reveal_run_spec (pl : PartialLine) (k lo hi hint : Nat) (r : PartialRun)
    (hk : pl.hints.get? k = some hint) (hr : pl.runs.get? k = some r)
    (hhi : hi ≤ pl.line.length) :
    (pl.reveal_run k lo hi).runs =
      pl.runs.set k ⟨max r.lo (hi - hint), min r.hi (lo + hint)⟩ ∧
    (∀ j, lo ≤ j → j < hi → (pl.reveal_run k lo hi).line.get? j =
      some (.known .full)) ∧
    (∀ j, ¬ (lo ≤ j ∧ j < hi) →
      (pl.reveal_run k lo hi).line.get? j = pl.line.get? j) := by
  refine ⟨?_, fun j h1 h2 => ?_, fun j hout => ?_⟩ <;>
    simp only [PartialLine.reveal_run, reveal_all_hints, reveal_all_runs, hk, hr]
  · by_cases hcmp : hi > hint
    · rw [if_pos hcmp]; rfl
    · rw [if_neg hcmp, show hi - hint = 0 from by omega]; rfl
  · rw [reveal_all_range_get? Square.full (hi - lo) pl lo hi rfl hhi j,
      if_pos ⟨h1, h2⟩]
  · rw [reveal_all_range_get? Square.full (hi - lo) pl lo hi rfl hhi j,
      if_neg hout]

/-- C6 witness: the amended statement evaluated on `c6line` with
`reveal_run(0, 0, 3)`. -/
theorem c6_reveal_run_spec_witness :
    (c6line.reveal_run 0 0 3).runs =
      c6line.runs.set 0 ⟨max PartialRun.new.lo (3 - 1), min PartialRun.new.hi (0 + 1)⟩ ∧
    (c6line.reveal_run 0 0 3).line.get? 1 = some (.known .full) :=
  ⟨(c6_reveal_run_spec c6line 0 0 3 1 PartialRun.new rfl rfl (by decide)).1,
   (c6_reveal_run_spec c6line 0 0 3 1 PartialRun.new rfl rfl (by decide)).2.1
     1 (by decide) (by decide)⟩

/-- The loop of the specification's overlap rule R1, in the specification's
words: with `slack` fixed, reveal run `i` on `[left + slack, left + hᵢ)`
exactly when `left + slack < left + hᵢ`, then advance `left` by `hᵢ + 1`
(for comparison with the source's `overlapGo`). -/
def overlapSpecGo (pl : PartialLine) : List Nat → Nat → Nat → Nat → PartialLine
  | [], _, _, _ => pl
  | h :: rest, i, left, slack =>
    let pl1 := if left + slack < left + h then
                 pl.reveal_run i (left + slack) (left + h)
               else pl
    overlapSpecGo pl1 rest (i + 1) (left + h + 1) slack

/-- The overlap rule as the specification's R1 words it, for comparison with
the source's `deduce_overlap`: `span = Σ hᵢ + (k − 1 if k > 0 else 0)`,
rejecting lines with `L < span` (the amended claim: the underflow panic,
modelled `none`, instead of an Invalid error), else `slack = L − span` and
the loop above. -/
def overlapSpec (pl : PartialLine) : Option PartialLine :=
  let k := pl.hints.length
  let span := pl.hints.sum + (if 0 < k then k - 1 else 0)
  if pl.line.length < span then none
  else some (overlapSpecGo pl pl.hints 0 0 (pl.line.length - span))

theorem overlapGo_eq_specGo :
    ∀ (hs : List Nat) (pl : PartialLine) (i left s : Nat),
      overlapGo pl hs i left s = overlapSpecGo pl hs i left s := by
  intro hs
  induction hs with
  | nil => intro pl i left s; rfl
  | cons h rest ih =>
    intro pl i left s
    simp only [overlapGo, overlapSpecGo]
    exact ih _ _ _ _

/-- A one-cell line whose hint `[3]` cannot fit (`span = 3 > 1`). -/
def c7line : PartialLine := ⟨[3], [PartialRun.new], [.unknown], []⟩

/-- A 1×1 puzzle whose row hint `[3]` cannot fit its line. -/
def c7puzzle : Puzzle := (Puzzle.new.push_row [3]).push_col []

/-- C7: the claim says the overlap rule fails with Invalid when `L < span`.
The code instead computes `line.len() - span` in plain usize arithmetic,
which panics (underflow, modelled by `none`) — no Invalid error is produced,
neither by the rule nor by `solve` on a puzzle containing such a line. -/
theorem c7_underflow_not_invalid :
    deduce_overlap c7line = none ∧ solveFuel 5 c7puzzle = none :=
  ⟨rfl, rfl⟩

/-- C7 (amended): `deduce_overlap` computes `span = Σ hᵢ + (k−1 if k>0 else
0)` and, when `span ≤ L`, `slack = L − span`, then iterates `i` from 0 with
`left` from 0, calling `reveal_run(i, left + slack, left + hᵢ)` exactly when
`left + slack < left + hᵢ` and advancing `left` by `hᵢ + 1`; when `L < span`
it panics (usize underflow, modelled `none`) instead of failing with Invalid.
Stated as: the source rule equals the rule written from the amended
specification text. -/
theorem c7_overlap_refines_spec (pl : PartialLine) :
    deduce_overlap pl = overlapSpec pl := by
  simp only [deduce_overlap, overlapSpec, overlapGo_eq_specGo]
  have hgap : (if pl.hints.isEmpty then 0 else pl.hints.length - 1)
      = (if 0 < pl.hints.length then pl.hints.length - 1 else 0) := by
    cases pl.hints <;> simp
  rw [hgap]
  rcases Nat.lt_or_ge pl.line.length
      (pl.hints.sum + (if 0 < pl.hints.length then pl.hints.length - 1 else 0)) with hlt | hge
  · have h2 : ¬ (pl.hints.sum + (if 0 < pl.hints.length then pl.hints.length - 1 else 0) ≤
        pl.line.length) := by omega
    rw [if_neg h2, if_pos hlt]
  · have h1 : pl.hints.sum + (if 0 < pl.hints.length then pl.hints.length - 1 else 0) ≤
        pl.line.length := hge
    have h2 : ¬ pl.line.length <
        pl.hints.sum + (if 0 < pl.hints.length then pl.hints.length - 1 else 0) := by omega
    rw [if_pos h1, if_neg h2]

/-- Classifications the drained queue can produce: `verify` only ever returns
`Solved` or `Stuck`, so `stepGo`'s terminal value is one of those. -/
theorem stepGo_done_cases (p : Puzzle) :
    ∀ (q : List LineIndex) (g : List (List PartialSquare))
      (rr rc : List (List PartialRun)) (e : SolverError),
      stepGo p q g rr rc = some (.done e) → e = .solved ∨ e = .stuck := by
  intro q
  induction q with
  | nil =>
    intro g rr rc e h
    simp only [stepGo, Option.some.injEq, StepOutcome.done.injEq] at h
    subst h
    unfold verify
    split
    · right; rfl
    · left; rfl
  | cons li rest ih =>
    intro g rr rc e h
    simp only [stepGo] at h
    cases hsat : saturate ((SolverWorker.line p rr rc g li).line.length + 1)
        (SolverWorker.line p rr rc g li) with
    | none => simp [hsat] at h
    | some pl =>
      simp only [hsat] at h
      by_cases hd : pl.dirty.isEmpty = true
      · rw [if_pos hd] at h
        exact ih _ _ _ _ h
      · rw [if_neg hd] at h
        simp at h

/-- The trivial 1×1 puzzle with empty row and column hints (its unique
solution is the single cell Empty). -/
def trivialPuzzle : Puzzle := (Puzzle.new.push_row []).push_col []

/-- The worker state after one step on `trivialPuzzle`: the cell is revealed
Empty and `Col 0` is enqueued behind the initial `Col 0`. -/
def tw1 : SolverWorker := ⟨trivialPuzzle, [[.known .empty]], [.col 0, .col 0], [[]], [[]]⟩

/-- A worker with a drained queue and a still-Unknown cell, to exercise the
Stuck classification. -/
def sw : SolverWorker := ⟨trivialPuzzle, [[.unknown]], [], [[]], [[]]⟩

/-- C8: when the queue drains without progress, `step` classifies via
`verify`: `Solved` exactly when every cell is Known, `Stuck` otherwise; and
`solve` maps a `Solved` classification to `Ok(())` and a `Stuck` one to
`Err(Stuck)`. -/
theorem c8_terminal_classification :
    (∀ (p : Puzzle) (g : List (List PartialSquare)) (rr rc : List (List PartialRun)),
        stepGo p [] g rr rc = some (.done (verify g))) ∧
    (∀ g, verify g = .solved ↔ ∀ row ∈ g, ∀ sq ∈ row, sq.is_known = true) ∧
    (∀ g, verify g = .stuck ↔ ¬ ∀ row ∈ g, ∀ sq ∈ row, sq.is_known = true) ∧
    (∀ (n : Nat) (w : SolverWorker), w.step = some (.done .solved) →
        solveGo (n + 1) w = some (.ok ())) ∧
    (∀ (n : Nat) (w : SolverWorker), w.step = some (.done .stuck) →
        solveGo (n + 1) w = some (.error .stuck)) := by
  have hsq : ∀ sq : PartialSquare, (sq == PartialSquare.unknown) = !sq.is_known :=
    fun sq => by cases sq <;> rfl
  have key : ∀ g : List (List PartialSquare),
      (g.any (fun row => row.any (fun sq => sq == PartialSquare.unknown)) = true)
        ↔ ¬ (∀ row ∈ g, ∀ sq ∈ row, sq.is_known = true) := by
    intro g
    simp only [hsq, List.any_eq_true, Bool.not_eq_true']
    constructor
    · rintro ⟨row, hrow, sq, hsqm, hfalse⟩ hall
      rw [hall row hrow sq hsqm] at hfalse
      exact Bool.noConfusion hfalse
    · intro hnot
      push_neg at hnot
      obtain ⟨row, hrow, sq, hsqm, hne⟩ := hnot
      rcases Bool.eq_false_or_eq_true sq.is_known with ht | hf
      · exact absurd ht hne
      · exact ⟨row, hrow, sq, hsqm, hf⟩
  refine ⟨fun p g rr rc => rfl, fun g => ?_, fun g => ?_,
    fun n w h => by simp only [solveGo, h], fun n w h => by simp only [solveGo, h]⟩
  · unfold verify
    by_cases hA : g.any (fun row => row.any (fun sq => sq == PartialSquare.unknown)) = true
    · rw [if_pos hA]
      exact ⟨fun h => SolverError.noConfusion h, fun hall => absurd hall ((key g).mp hA)⟩
    · rw [if_neg hA]
      refine ⟨fun _ => ?_, fun _ => rfl⟩
      by_contra hno
      exact hA ((key g).mpr hno)
  · unfold verify
    by_cases hA : g.any (fun row => row.any (fun sq => sq == PartialSquare.unknown)) = true
    · rw [if_pos hA]
      exact ⟨fun _ => (key g).mp hA, fun _ => rfl⟩
    · rw [if_neg hA]
      exact ⟨fun h => SolverError.noConfusion h, fun hno => absurd ((key g).mpr hno) hA⟩

/-- C8 witness: the classifications and the `solve` mapping evaluated on
concrete workers (`tw1` reaches Solved, `sw` reaches Stuck). -/
theorem c8_terminal_classification_witness :
    stepGo contraPuzzle [] [[PartialSquare.known Square.full]] [[]] [[]] =
      some (.done (verify [[PartialSquare.known Square.full]])) ∧
    (verify [[PartialSquare.known Square.full]] = .solved ↔
      ∀ row ∈ [[PartialSquare.known Square.full]], ∀ sq ∈ row, sq.is_known = true) ∧
    (tw1.step = some (.done .solved) ∧ solveGo 1 tw1 = some (.ok ())) ∧
    (sw.step = some (.done .stuck) ∧ solveGo 1 sw = some (.error .stuck)) :=
  ⟨c8_terminal_classification.1 contraPuzzle [[PartialSquare.known Square.full]] [] [],
   c8_terminal_classification.2.1 [[PartialSquare.known Square.full]],
   ⟨rfl, c8_terminal_classification.2.2.2.1 0 tw1 rfl⟩,
   ⟨rfl, c8_terminal_classification.2.2.2.2 0 sw rfl⟩⟩

/-- C10: whenever `solve` returns a result at all, it is `Ok(())` or
`Err(Stuck)` — never `Err(Invalid)`: `verify` only produces `Solved` or
`Stuck`, and `solve` maps `Solved` to `Ok(())`, so no terminating run reports
Invalid. -/
theorem c10_no_invalid_result :
    ∀ (n : Nat) (w : SolverWorker) (r : Except SolverError Unit),
      solveGo n w = some r → r = .ok () ∨ r = .error .stuck := by
  intro n
  induction n with
  | zero => intro w r h; exact Option.noConfusion h
  | succ n ih =>
    intro w r h
    simp only [solveGo] at h
    cases hstep : w.step with
    | none => simp [hstep] at h
    | some o =>
      cases o with
      | progress w1 =>
        simp only [hstep] at h
        exact ih w1 r h
      | done e =>
        have he : e = .solved ∨ e = .stuck :=
          stepGo_done_cases w.puzzle w.queue w.grid w.runsRow w.runsCol e hstep
        cases e with
        | solved =>
          simp only [hstep] at h
          exact Or.inl (Option.some.inj h).symm
        | invalid => rcases he with h1 | h1 <;> exact SolverError.noConfusion h1
        | stuck =>
          simp only [hstep] at h
          exact Or.inr (Option.some.inj h).symm

/-- C10 witness: on `trivialPuzzle`, `solve` terminates with `Ok(())`, which
is one of the two permitted results. -/
theorem c10_no_invalid_result_witness :
    solveFuel 2 trivialPuzzle = some (.ok ()) ∧
    ((Except.ok () : Except SolverError Unit) = .ok () ∨
     (Except.ok () : Except SolverError Unit) = .error .stuck) :=
  ⟨rfl, c10_no_invalid_result 2 (SolverWorker.new trivialPuzzle) (.ok ()) rfl⟩

end Nonogram
